import Mathlib

/-!
# Verification of the GECIA offline-RL pipeline

Shallow embedding of the repository's own logic:

* `src/2-Model/2.2-training.py` — offline dataset loading with the
  terminal-flag fallback, the `OfflineEnv` replay environment, and the
  training driver loop (best-checkpoint tracking, early stopping, the
  `finally` block with the non-fatal torch export).
* `src/3-Evaluate/FittingAnalysis.py` — the polynomial-fit / spline-fallback
  error-handling structure of the curve-fitting script.

Numeric cell values are modelled as rationals (`ℚ`); the Python float
`-float('inf')` sentinel for the best-seen reward is modelled as `⊥` in
`WithBot ℚ`.  Calls into external libraries (`np.polyfit`,
`UnivariateSpline`, `pd.read_csv`, `algo.train()`, `torch.save`) are
modelled as parameters carrying the outcome the library call produced,
with `Except`/`Option` marking a raised exception.
-/

namespace GECIA

/-- The four column groups parsed from `model-base.csv`
(`2.2-training.py` lines 21–24): `states` are the 34-feature rows
(columns 0–33), `actions` column 34, `rewards` column 35, `terminals`
column 36.  The single-column arrays of shape `(n, 1)` are modelled as
flat lists of their entries. -/
structure Dataset where
  states : List (List ℚ)
  actions : List ℚ
  rewards : List ℚ
  terminals : List ℚ
  deriving DecidableEq, Repr

/-- numpy assignment `terminals[-1000:, 0] = 1` (line 28): the slice
`[-1000:]` covers the last `min 1000 n` entries, which are overwritten
with `1`; the first `n - min 1000 n` entries are kept. -/
def setTerminalsLast (terminals : List ℚ) : List ℚ :=
  terminals.take (terminals.length - min 1000 terminals.length)
    ++ List.replicate (min 1000 terminals.length) 1

/-- Lines 26–28: `if terminals.sum() == 0: terminals[-1000:, 0] = 1`.
Only the terminal column is touched; states, actions and rewards are
left as parsed. -/
def applyTerminalFallback (d : Dataset) : Dataset :=
  if d.terminals.sum = 0 then { d with terminals := setTerminalsLast d.terminals }
  else d

/-- The CSV source handed to `pd.read_csv("model-base.csv")` (line 20):
either absent, present but unparsable, or a table of numeric rows. -/
inductive CsvSource where
  | missing
  | malformed
  | table (rows : List (List ℚ))
  deriving DecidableEq, Repr

/-- What `pd.read_csv` does with each kind of source: a missing file
raises `FileNotFoundError`, an unparsable one raises a parser error,
otherwise the rows are returned. -/
def read_csv : CsvSource → Except String (List (List ℚ))
  | CsvSource.missing => Except.error "FileNotFoundError"
  | CsvSource.malformed => Except.error "ParserError"
  | CsvSource.table rows => Except.ok rows

/-- Observable outcome of running the loading section (lines 19–30):
either a dataset is produced, or an exception escapes the script
unhandled, or (never produced by this script, present so the
alternative can be stated) an error message is printed and the process
exits deliberately. -/
inductive LoadOutcome where
  | ok (d : Dataset)
  | uncaughtError (msg : String)
  | printAndExit (msg : String)
  deriving DecidableEq, Repr

/-- Whether a load outcome is the deliberate print-then-exit path. -/
def LoadOutcome.isPrintAndExit : LoadOutcome → Bool
  | LoadOutcome.printAndExit _ => true
  | _ => false

/-- Lines 19–30 of `2.2-training.py` as a whole: `pd.read_csv` is called
with no surrounding `try`, so any read error propagates unhandled; on
success the fixed-position columns are extracted (`iloc[:, 0:34]`,
`[:, 34:35]`, `[:, 35:36]`, `[:, 36:37]`) and the terminal fallback is
applied.  No emptiness check appears anywhere in this section. -/
def loadData (src : CsvSource) : LoadOutcome :=
  match read_csv src with
  | Except.error e => LoadOutcome.uncaughtError e
  | Except.ok rows =>
      LoadOutcome.ok (applyTerminalFallback
        { states := rows.map (fun r => r.take 34)
          actions := rows.map (fun r => r.getD 34 0)
          rewards := rows.map (fun r => r.getD 35 0)
          terminals := rows.map (fun r => r.getD 36 0) })

/-- Mutable fields of `OfflineEnv` (lines 59–61): the episode cursor
`_index`, `_current_episode_reward`, `_current_episode_length`. -/
structure EnvState where
  index : ℕ
  episodeReward : ℚ
  episodeLength : ℕ
  deriving DecidableEq, Repr

/-- The 5-tuple returned by `OfflineEnv.step` (lines 95–97): observation,
reward, terminated, truncated, and the `episode_reward` entry of the
info dictionary. -/
structure StepReturn where
  obs : List ℚ
  reward : ℚ
  terminated : Bool
  truncated : Bool
  episode_reward : ℚ
  deriving DecidableEq, Repr

namespace OfflineEnv

/-- `OfflineEnv.step` (lines 70–97).  The row at the current cursor is
read (`obs`, `reward`, `terminated = bool(...)`), episode accumulators
are updated, and the cursor advances cyclically.  An out-of-range
cursor makes the Python indexing raise, modelled as `none`; in that
case no state update happens.  The `action` argument is bound but never
read by the body. -/
def step (d : Dataset) (s : EnvState) (action : ℚ) :
    Option (StepReturn × EnvState) :=
  match d.states[s.index]?, d.rewards[s.index]?, d.terminals[s.index]? with
  | some obs, some reward, some t =>
      let terminated := decide (t ≠ 0)
      let episodeReward := s.episodeReward + reward
      some ({ obs := obs
              reward := reward
              terminated := terminated
              truncated := false
              episode_reward := episodeReward },
            { index := (s.index + 1) % d.states.length
              episodeReward := episodeReward
              episodeLength := s.episodeLength + 1 })
  | _, _, _ => none

/-- `N` consecutive `step` calls threading the environment state; a raise
anywhere aborts the chain.  The action argument is irrelevant to `step`
(proved below), so `0` is passed. -/
def stepN (d : Dataset) : ℕ → EnvState → Option EnvState
  | 0, s => some s
  | n + 1, s =>
      match step d s 0 with
      | none => none
      | some (_, s2) => stepN d n s2

end OfflineEnv

/-- Per-run accumulator of the training loop (lines 158–177): the
best-seen reward (`-float('inf')` at entry, modelled as `⊥`) and the
iterations at which a best checkpoint was saved, in order. -/
structure LoopState where
  best : WithBot ℚ
  saves : List ℕ
  deriving DecidableEq, Repr

/-- How a run of the `for i in range(100)` loop ends: the budget is
exhausted, the early-stop `break` fires at iteration `i`, or a
`KeyboardInterrupt` arrives at the boundary before iteration `i`
(interrupts are modelled at iteration granularity, per the spec's
"responding to a process-level interrupt between iterations"). -/
inductive LoopExit where
  | exhausted
  | earlyStopped (i : ℕ)
  | interrupted (i : ℕ)
  deriving DecidableEq, Repr

/-- The loop body from iteration `i` with `fuel` iterations left
(lines 162–182): read the iteration's mean reward, save a best
checkpoint when `avg_reward > best_reward` (updating `best_reward`),
then `break` when `i > 20 and avg_reward <= 0`. -/
def loopFrom (rewards : ℕ → ℚ) (intr : Option ℕ) :
    ℕ → ℕ → LoopState → LoopState × LoopExit
  | _, 0, st => (st, LoopExit.exhausted)
  | i, fuel + 1, st =>
      if intr = some i then (st, LoopExit.interrupted i)
      else
        let r := rewards i
        let st2 : LoopState :=
          if st.best < (r : WithBot ℚ) then
            { best := (r : WithBot ℚ), saves := st.saves ++ [i] }
          else st
        if 20 < i ∧ r ≤ 0 then (st2, LoopExit.earlyStopped i)
        else loopFrom rewards intr (i + 1) fuel st2

/-- The whole training loop: iterations `0..99` starting from
`best_reward = -float('inf')` and no saves. -/
def runLoop (rewards : ℕ → ℚ) (intr : Option ℕ) : LoopState × LoopExit :=
  loopFrom rewards intr 0 100 { best := ⊥, saves := [] }

/-- `result.get('episode_reward_mean', 0)` (line 164): the metric when
present in the result dictionary, else `0`. -/
def getMetric (metric : Option ℚ) : ℚ := metric.getD 0

/-- Observable outcome of the driver (lines 150–206): the loop state and
exit, whether the `finally` block wrote the final checkpoint, the
reported export error if any, and whether the process reached the final
`print("Process completed")`. -/
structure DriverResult where
  loopState : LoopState
  exit : LoopExit
  finalCheckpointSaved : Bool
  exportError : Option String
  processCompleted : Bool
  deriving DecidableEq, Repr

/-- The driver `try/except KeyboardInterrupt/finally` (lines 158–206).
The `except` clause turns an interrupt into a normal path; the
`finally` block always runs `algo.save(checkpoint_dir)` and then wraps
the torch weight export in its own `try/except Exception`, so an export
failure is reported and the process still completes. -/
def runDriver (rewards : ℕ → ℚ) (intr : Option ℕ)
    (exportResult : Except String Unit) : DriverResult :=
  let p := runLoop rewards intr
  match exportResult with
  | Except.ok _ =>
      { loopState := p.1, exit := p.2, finalCheckpointSaved := true
        exportError := none, processCompleted := true }
  | Except.error e =>
      { loopState := p.1, exit := p.2, finalCheckpointSaved := true
        exportError := some e, processCompleted := true }

/-- Per-iteration trace of the best-checkpoint logic (lines 173–177)
over a run's sequence of observed mean rewards: for each iteration,
whether a save happened and the tracked best value afterwards. -/
def bestTrace : List ℚ → WithBot ℚ → List (Bool × WithBot ℚ)
  | [], _ => []
  | r :: rs, best_reward =>
      if best_reward < (r : WithBot ℚ) then
        (true, (r : WithBot ℚ)) :: bestTrace rs (r : WithBot ℚ)
      else (false, best_reward) :: bestTrace rs best_reward

/-- Entry `k` of the trace started at best value `b`. -/
def traceEntry (rs : List ℚ) (b : WithBot ℚ) (k : ℕ) : Bool × WithBot ℚ :=
  (bestTrace rs b).getD k (false, ⊥)

/-- The tracked best value just before iteration `k` runs, for a trace
started at `b`. -/
def bestBeforeAux (rs : List ℚ) (b : WithBot ℚ) : ℕ → WithBot ℚ
  | 0 => b
  | k + 1 => (traceEntry rs b k).2

/-- Whether iteration `k` of a run with reward sequence `rs` saved a
best checkpoint (best value starts at `-float('inf')`). -/
def savedAt (rs : List ℚ) (k : ℕ) : Bool := (traceEntry rs ⊥ k).1

/-- The tracked best value after iteration `k` of a run with reward
sequence `rs`. -/
def bestAt (rs : List ℚ) (k : ℕ) : WithBot ℚ := (traceEntry rs ⊥ k).2

/-- The tracked best value just before iteration `k` of a run with
reward sequence `rs`. -/
def bestBefore (rs : List ℚ) (k : ℕ) : WithBot ℚ := bestBeforeAux rs ⊥ k

/-- The result dictionary of the curve-fitting section
(`FittingAnalysis.py` lines 58–85). -/
structure FitResults where
  method : String
  y0_fit : List ℚ
  y1_fit : List ℚ
  success : Bool
  deriving DecidableEq, Repr

/-- Lines 60–85 of `FittingAnalysis.py`: the two `np.polyfit` calls run
inside one `try`; if either raises, the `except` block produces both
fitted curves with `UnivariateSpline`, records the method
`"Spline Interpolation"` and sets `success` to `False`; with no
exception both curves come from the polynomial fit, method
`"4th Order Polynomial"`, `success` `True`.  An exception raised by the
spline calls themselves escapes the `except` block (`Except.error`).
Each library call is a parameter carrying its outcome. -/
def fit_results (poly0 poly1 spl0 spl1 : Except String (List ℚ)) :
    Except String FitResults :=
  match poly0, poly1 with
  | Except.ok y0, Except.ok y1 =>
      Except.ok { method := "4th Order Polynomial"
                  y0_fit := y0, y1_fit := y1, success := true }
  | _, _ =>
      match spl0, spl1 with
      | Except.ok s0, Except.ok s1 =>
          Except.ok { method := "Spline Interpolation"
                      y0_fit := s0, y1_fit := s1, success := false }
      | Except.error e, _ => Except.error e
      | _, Except.error e => Except.error e

/-- Two-row dataset used as a concrete input: distinct observations in
rows 0 and 1, so which row an observation came from is visible. -/
def dsEx : Dataset :=
  { states := [[0], [1]], actions := [10, 20], rewards := [2, 3],
    terminals := [0, 0] }

/-- Two-entry all-zero terminal column, for evaluating the fallback. -/
def dW : Dataset :=
  { states := [[5], [6]], actions := [4, 4], rewards := [7, 8],
    terminals := [0, 0] }

/-- A reward schedule that is always non-positive, so the early-stop
condition fires at the first admissible iteration, 21. -/
def rwStop : ℕ → ℚ := fun _ => 0

/-- C3: `step`'s return value and successor state never depend on the
`action` argument: from any environment state, `step(a1)` and
`step(a2)` agree for all actions `a1`, `a2`. -/
theorem step_ignores_action (d : Dataset) (s : EnvState) (a1 a2 : ℚ) :
    OfflineEnv.step d s a1 = OfflineEnv.step d s a2 := rfl

/-- C2: evaluating the embedded `step` on a two-row dataset at cursor 0
shows the returned observation is row 0's observation `[0]` — the row
the cursor already pointed at, identical to what `reset` would have
returned — while row 1's observation, `[1]`, is what a replay of the
logged next observation would return.  The reward, terminal flag and
accumulated episode reward of row 0, `truncated = false`, and the
cursor advancing to 1 are as the claim states. -/
theorem step_returns_current_row_obs :
    OfflineEnv.step dsEx { index := 0, episodeReward := 0, episodeLength := 0 }
        (37 / 10)
      = some ({ obs := [0], reward := 2, terminated := false,
                truncated := false, episode_reward := 2 },
              { index := 1, episodeReward := 2, episodeLength := 1 })
    ∧ dsEx.states.getD 0 [] = [0] ∧ dsEx.states.getD 1 [] = [1] := by
  refine ⟨?_, rfl, rfl⟩
  norm_num [OfflineEnv.step, dsEx]

/-- C8: however the loop ends — exhaustion, early stop, or keyboard
interruption, over any reward schedule and interrupt time — the
`finally` block writes the final checkpoint, and an exception during
the torch weight export is caught and reported (`exportError`) without
aborting, so the process completes and the checkpoint is retained. -/
theorem driver_finalize_always_checkpoints (rewards : ℕ → ℚ)
    (intr : Option ℕ) (e : String) :
    ((runDriver rewards intr (Except.ok ())).finalCheckpointSaved = true
      ∧ (runDriver rewards intr (Except.ok ())).processCompleted = true
      ∧ (runDriver rewards intr (Except.ok ())).exportError = none)
    ∧ ((runDriver rewards intr (Except.error e)).finalCheckpointSaved = true
      ∧ (runDriver rewards intr (Except.error e)).processCompleted = true
      ∧ (runDriver rewards intr (Except.error e)).exportError = some e) :=
  ⟨⟨rfl, rfl, rfl⟩, ⟨rfl, rfl, rfl⟩⟩

/-- C7 (counterexample): at the concrete input "source file missing",
the loader's outcome is the unhandled `FileNotFoundError` propagating —
not a printed error followed by exit — and a present-but-empty table
loads successfully into four empty arrays, so no emptiness validation
occurs.  This refutes the claim that the loader validates non-emptiness
and reports missing/malformed sources by printing and exiting. -/
theorem loader_does_not_print_and_exit :
    loadData CsvSource.missing = LoadOutcome.uncaughtError "FileNotFoundError"
    ∧ (loadData CsvSource.missing).isPrintAndExit = false
    ∧ loadData (CsvSource.table [])
        = LoadOutcome.ok { states := [], actions := [], rewards := [],
                           terminals := [] } := by
  refine ⟨rfl, rfl, ?_⟩
  rfl

/-- C7 (amended): the loader never takes a print-and-exit path for any
source; a missing or malformed source makes the read error propagate
unhandled, and an empty table is accepted without validation. -/
theorem loader_error_behaviour :
    (∀ src : CsvSource, (loadData src).isPrintAndExit = false)
    ∧ loadData CsvSource.missing = LoadOutcome.uncaughtError "FileNotFoundError"
    ∧ loadData CsvSource.malformed = LoadOutcome.uncaughtError "ParserError"
    ∧ loadData (CsvSource.table [])
        = LoadOutcome.ok { states := [], actions := [], rewards := [],
                           terminals := [] } := by
  refine ⟨?_, rfl, rfl, rfl⟩
  intro src
  cases src with
  | missing => rfl
  | malformed => rfl
  | table rows => rfl

/-- C9: if either group's 4th-order polynomial fit raises any
exception, and the spline calls succeed, then both fitted curves are
the spline outputs, the recorded method is `"Spline Interpolation"`,
and the success flag is `False` — the script does not abort. -/
theorem polyfit_failure_falls_back_to_spline
    (poly0 poly1 : Except String (List ℚ)) (s0 s1 : List ℚ)
    (hfail : poly0.isOk = false ∨ poly1.isOk = false) :
    fit_results poly0 poly1 (Except.ok s0) (Except.ok s1)
      = Except.ok { method := "Spline Interpolation",
                    y0_fit := s0, y1_fit := s1, success := false } := by
  cases poly0 with
  | error e0 => rfl
  | ok y0 =>
      cases poly1 with
      | error e1 => rfl
      | ok y1 => simp [Except.isOk, Except.toBool] at hfail

/-- C9 witness: with group 0's polynomial fit raising
`"SVD did not converge"` and concrete spline outputs, the fallback
result is produced. -/
theorem polyfit_failure_falls_back_to_spline_witness :
    ((Except.error "SVD did not converge" : Except String (List ℚ)).isOk = false
      ∨ (Except.ok [3] : Except String (List ℚ)).isOk = false)
    ∧ fit_results (Except.error "SVD did not converge") (Except.ok [3])
        (Except.ok [1, 2]) (Except.ok [4, 5])
      = Except.ok { method := "Spline Interpolation",
                    y0_fit := [1, 2], y1_fit := [4, 5], success := false } :=
  ⟨Or.inl rfl,
   polyfit_failure_falls_back_to_spline (Except.error "SVD did not converge")
     (Except.ok [3]) [1, 2] [4, 5] (Or.inl rfl)⟩

/-- One `step` from a valid cursor over a rectangular dataset succeeds
and produces exactly the row's values and the cyclically advanced
cursor. -/
theorem step_eq_of_lt (d : Dataset) (s : EnvState) (a : ℚ)
    (hi : s.index < d.states.length)
    (hir : s.index < d.rewards.length)
    (hit : s.index < d.terminals.length) :
    OfflineEnv.step d s a =
      some ({ obs := d.states[s.index], reward := d.rewards[s.index],
              terminated := decide (d.terminals[s.index] ≠ 0),
              truncated := false,
              episode_reward := s.episodeReward + d.rewards[s.index] },
            { index := (s.index + 1) % d.states.length,
              episodeReward := s.episodeReward + d.rewards[s.index],
              episodeLength := s.episodeLength + 1 }) := by
  unfold OfflineEnv.step
  rw [List.getElem?_eq_getElem hi, List.getElem?_eq_getElem hir,
    List.getElem?_eq_getElem hit]

/-- C4: over a rectangular nonempty dataset, `N` consecutive `step`
calls from a valid cursor `i` always succeed, leave the cursor at
`(i + N) mod table_size`, and keep it in range — independently of the
terminal flags encountered. -/
theorem cursor_after_n_steps (d : Dataset) (s : EnvState) (N : ℕ)
    (hn : 0 < d.states.length)
    (hr : d.rewards.length = d.states.length)
    (ht : d.terminals.length = d.states.length)
    (hi : s.index < d.states.length) :
    ∃ s2, OfflineEnv.stepN d N s = some s2
      ∧ s2.index = (s.index + N) % d.states.length
      ∧ s2.index < d.states.length := by
  induction N generalizing s with
  | zero =>
      exact ⟨s, rfl, by rw [Nat.add_zero, Nat.mod_eq_of_lt hi], hi⟩
  | succ n ih =>
      have hir : s.index < d.rewards.length := by rw [hr]; exact hi
      have hit : s.index < d.terminals.length := by rw [ht]; exact hi
      have hi2 : (s.index + 1) % d.states.length < d.states.length :=
        Nat.mod_lt _ hn
      obtain ⟨s2, hs2, hidx, hlt⟩ :=
        ih { index := (s.index + 1) % d.states.length,
             episodeReward := s.episodeReward + d.rewards[s.index],
             episodeLength := s.episodeLength + 1 } hi2
      refine ⟨s2, ?_, ?_, hlt⟩
      · rw [OfflineEnv.stepN, step_eq_of_lt d s 0 hi hir hit]
        exact hs2
      · rw [hidx, Nat.mod_add_mod, show s.index + 1 + n = s.index + (n + 1) by
          omega]

/-- C4 witness: three steps through the two-row dataset from cursor 0
land on cursor `(0 + 3) % 2 = 1`. -/
theorem cursor_after_n_steps_witness :
    0 < dsEx.states.length
    ∧ (∃ s2, OfflineEnv.stepN dsEx 3
          { index := 0, episodeReward := 0, episodeLength := 0 } = some s2
        ∧ s2.index = (0 + 3) % dsEx.states.length
        ∧ s2.index < dsEx.states.length) :=
  ⟨by norm_num [dsEx],
   cursor_after_n_steps dsEx
     { index := 0, episodeReward := 0, episodeLength := 0 } 3
     (by norm_num [dsEx]) (by norm_num [dsEx]) (by norm_num [dsEx])
     (by norm_num [dsEx])⟩

/-- The conditional update of lines 174–176 only ever appends to the
list of saved iterations. -/
theorem mem_saves_update (st : LoopState) (r : ℚ) (i x : ℕ)
    (hx : x ∈ st.saves) :
    x ∈ (if st.best < (r : WithBot ℚ) then
           ({ best := (r : WithBot ℚ), saves := st.saves ++ [i] } : LoopState)
         else st).saves := by
  split
  · exact List.mem_append_left _ hx
  · exact hx

/-- Iterations already recorded as saved stay recorded through the rest
of the loop. -/
theorem loopFrom_saves_mono (rewards : ℕ → ℚ) (intr : Option ℕ) :
    ∀ (fuel i : ℕ) (st : LoopState) (x : ℕ), x ∈ st.saves →
      x ∈ (loopFrom rewards intr i fuel st).1.saves := by
  intro fuel
  induction fuel with
  | zero =>
      intro i st x hx
      simpa [loopFrom] using hx
  | succ n ih =>
      intro i st x hx
      by_cases h1 : intr = some i
      · simpa [loopFrom, h1] using hx
      · by_cases h2 : 20 < i ∧ rewards i ≤ 0
        · simp only [loopFrom, if_neg h1, if_pos h2]
          exact mem_saves_update st (rewards i) i x hx
        · simp only [loopFrom, if_neg h1, if_neg h2]
          exact ih (i + 1) _ x (mem_saves_update st (rewards i) i x hx)

/-- An iteration reached with the best value still at `⊥` always takes
the save branch, and stays saved for the rest of the run. -/
theorem loopFrom_bot_saves (rewards : ℕ → ℚ) (intr : Option ℕ) (i f : ℕ)
    (st : LoopState) (h : ¬intr = some i) (hb : st.best = ⊥) :
    i ∈ (loopFrom rewards intr i (f + 1) st).1.saves := by
  have hbot : st.best < ((rewards i : ℚ) : WithBot ℚ) := by
    rw [hb]
    exact WithBot.bot_lt_coe _
  by_cases h2 : 20 < i ∧ rewards i ≤ 0
  · simp only [loopFrom, if_neg h, if_pos hbot, if_pos h2]
    exact List.mem_append_right _ (by simp)
  · simp only [loopFrom, if_neg h, if_pos hbot, if_neg h2]
    exact loopFrom_saves_mono rewards intr f (i + 1) _ i
      (List.mem_append_right _ (by simp))

/-- C10: in any run that is not interrupted before its first iteration,
iteration 0 saves a best checkpoint: the best-seen value starts at
`-float('inf')` (`⊥`), every rational metric value — `0` by default
when `episode_reward_mean` is absent from the result dictionary —
strictly exceeds it, so the save branch is taken unconditionally. -/
theorem first_iteration_always_saves (results : ℕ → Option ℚ)
    (intr : Option ℕ) (h : intr ≠ some 0) :
    0 ∈ (runLoop (fun i => getMetric (results i)) intr).1.saves
    ∧ getMetric none = 0 := by
  refine ⟨?_, rfl⟩
  exact loopFrom_bot_saves (fun i => getMetric (results i)) intr 0 99
    { best := ⊥, saves := [] } h rfl

/-- C10 witness: a run whose result dictionaries never contain the
metric (so every iteration reads the default `0`) still saves at
iteration 0. -/
theorem first_iteration_always_saves_witness :
    (none : Option ℕ) ≠ some 0
    ∧ (0 ∈ (runLoop (fun i => getMetric ((fun _ => none) i)) none).1.saves
        ∧ getMetric none = 0) :=
  ⟨by simp, first_iteration_always_saves (fun _ => none) none (by simp)⟩

/-- Characterization of the early-stop exit for the loop tail starting
at iteration `i` with `fuel` iterations left: the `break` fires at `k`
exactly when `k` is reached within the budget, `k > 20`, the reward at
`k` is non-positive, and no earlier reached iteration satisfied the
stop condition. -/
theorem loopFrom_earlyStop_iff (rewards : ℕ → ℚ) :
    ∀ (fuel i : ℕ) (st : LoopState) (k : ℕ),
      (loopFrom rewards none i fuel st).2 = LoopExit.earlyStopped k ↔
        (i ≤ k ∧ k < i + fuel ∧ 20 < k ∧ rewards k ≤ 0
          ∧ ∀ j, i ≤ j → j < k → ¬(20 < j ∧ rewards j ≤ 0)) := by
  intro fuel
  induction fuel with
  | zero =>
      intro i st k
      constructor
      · intro hcontra
        simp [loopFrom] at hcontra
      · rintro ⟨h1, h2, _⟩
        omega
  | succ n ih =>
      intro i st k
      have hintr : ¬(none : Option ℕ) = some i := by simp
      by_cases h2 : 20 < i ∧ rewards i ≤ 0
      · simp only [loopFrom, if_neg hintr, if_pos h2]
        constructor
        · intro he
          have hik : i = k := by
            cases he
            rfl
          subst hik
          exact ⟨le_refl i, by omega, h2.1, h2.2, fun j hj1 hj2 _ => by omega⟩
        · rintro ⟨h1, _, h3, h4, h5⟩
          rcases Nat.eq_or_lt_of_le h1 with heq | hlt
          · rw [heq]
          · exact absurd h2 (h5 i (le_refl i) hlt)
      · simp only [loopFrom, if_neg hintr, if_neg h2]
        rw [ih (i + 1) _ k]
        constructor
        · rintro ⟨h1, hlt, h3, h4, h5⟩
          refine ⟨by omega, by omega, h3, h4, ?_⟩
          intro j hj1 hj2
          rcases Nat.eq_or_lt_of_le hj1 with heq | hlt2
          · rw [← heq]
            exact h2
          · exact h5 j (by omega) hj2
        · rintro ⟨h1, hlt, h3, h4, h5⟩
          have hik : ¬i = k := by
            intro heq
            exact absurd ⟨h3, h4⟩ (heq ▸ h2)
          refine ⟨by omega, by omega, h3, h4, ?_⟩
          intro j hj1 hj2
          exact h5 j (by omega) hj2

/-- C6: a run (no interrupt) stops early at iteration `k` iff `k` is
within the 100-iteration budget, `k > 20`, its mean reward is `≤ 0`,
and no earlier iteration satisfied the stop condition (so iteration `k`
is actually reached); in particular no early stop can occur at any
iteration before 20, whatever the rewards. -/
theorem early_stop_iff (rewards : ℕ → ℚ) (k : ℕ) :
    ((runLoop rewards none).2 = LoopExit.earlyStopped k ↔
      (k < 100 ∧ 20 < k ∧ rewards k ≤ 0
        ∧ ∀ j, j < k → ¬(20 < j ∧ rewards j ≤ 0)))
    ∧ (k < 21 →
        ¬(runLoop rewards none).2 = LoopExit.earlyStopped k) := by
  have h := loopFrom_earlyStop_iff rewards 100 0
    { best := ⊥, saves := [] } k
  constructor
  · constructor
    · intro he
      obtain ⟨_, h2, h3, h4, h5⟩ := h.mp he
      exact ⟨by omega, h3, h4, fun j hj => h5 j (Nat.zero_le j) hj⟩
    · rintro ⟨h1, h3, h4, h5⟩
      exact h.mpr ⟨Nat.zero_le k, by omega, h3, h4, fun j _ hj => h5 j hj⟩
  · intro hk he
    obtain ⟨_, _, h3, _, _⟩ := h.mp he
    omega

/-- C6 witness: with every reward `0`, iteration 21 is the first with
`i > 20` and reward `≤ 0`, and the characterization instantiates
there. -/
theorem early_stop_iff_witness :
    ((runLoop rwStop none).2 = LoopExit.earlyStopped 21 ↔
      (21 < 100 ∧ 20 < 21 ∧ rwStop 21 ≤ 0
        ∧ ∀ j, j < 21 → ¬(20 < j ∧ rwStop j ≤ 0)))
    ∧ (21 < 21 →
        ¬(runLoop rwStop none).2 = LoopExit.earlyStopped 21) :=
  early_stop_iff rwStop 21

/-- The best value after the conditional update is below a bound iff
both the old best and the new reward are. -/
theorem update_lt_iff (b r x : WithBot ℚ) :
    (if b < r then r else b) < x ↔ b < x ∧ r < x := by
  split
  · rename_i h
    exact ⟨fun h2 => ⟨h.trans h2, h2⟩, fun h2 => h2.2⟩
  · rename_i h
    exact ⟨fun h2 => ⟨h2, lt_of_le_of_lt (not_lt.mp h) h2⟩, fun h2 => h2.1⟩

/-- Entry 0 of the trace is the first conditional update. -/
theorem traceEntry_zero (r : ℚ) (rs : List ℚ) (b : WithBot ℚ) :
    traceEntry (r :: rs) b 0
      = if b < (r : WithBot ℚ) then (true, (r : WithBot ℚ)) else (false, b) := by
  by_cases h : b < (r : WithBot ℚ) <;> simp [traceEntry, bestTrace, h]

/-- Later trace entries are entries of the tail trace started at the
updated best value. -/
theorem traceEntry_succ (r : ℚ) (rs : List ℚ) (b : WithBot ℚ) (k : ℕ) :
    traceEntry (r :: rs) b (k + 1)
      = traceEntry rs (if b < (r : WithBot ℚ) then (r : WithBot ℚ) else b) k := by
  by_cases h : b < (r : WithBot ℚ) <;> simp [traceEntry, bestTrace, h]

/-- The pre-iteration best value recurses the same way. -/
theorem bestBeforeAux_succ (r : ℚ) (rs : List ℚ) (b : WithBot ℚ) (k : ℕ) :
    bestBeforeAux (r :: rs) b (k + 1)
      = bestBeforeAux rs (if b < (r : WithBot ℚ) then (r : WithBot ℚ) else b)
          k := by
  cases k with
  | zero =>
      by_cases h : b < (r : WithBot ℚ) <;>
        simp [bestBeforeAux, traceEntry_zero, h]
  | succ j =>
      simp [bestBeforeAux, traceEntry_succ]

/-- Iteration `k` saves iff the reward at `k` strictly exceeds the best
value tracked just before `k`. -/
theorem traceEntry_fst_iff_bestBefore (rs : List ℚ) :
    ∀ (b : WithBot ℚ) (k : ℕ), k < rs.length →
      ((traceEntry rs b k).1 = true ↔
        bestBeforeAux rs b k < ((rs.getD k 0 : ℚ) : WithBot ℚ)) := by
  induction rs with
  | nil =>
      intro b k hk
      simp at hk
  | cons r rs ih =>
      intro b k hk
      cases k with
      | zero =>
          rw [traceEntry_zero]
          by_cases h : b < (r : WithBot ℚ) <;> simp [bestBeforeAux, h]
      | succ j =>
          rw [traceEntry_succ, bestBeforeAux_succ]
          have hlen : j < rs.length := by
            simp at hk
            omega
          rw [ih _ j hlen]
          simp [List.getD_cons_succ]

/-- Iteration `k` saves iff the reward at `k` strictly exceeds every
earlier iteration's reward (any initial best below all rewards, such as
`⊥`, imposes no extra constraint beyond its own bound). -/
theorem traceEntry_fst_iff (rs : List ℚ) :
    ∀ (b : WithBot ℚ) (k : ℕ), k < rs.length →
      ((traceEntry rs b k).1 = true ↔
        (b < ((rs.getD k 0 : ℚ) : WithBot ℚ)
          ∧ ∀ j, j < k → rs.getD j 0 < rs.getD k 0)) := by
  induction rs with
  | nil =>
      intro b k hk
      simp at hk
  | cons r rs ih =>
      intro b k hk
      cases k with
      | zero =>
          rw [traceEntry_zero]
          by_cases h : b < (r : WithBot ℚ) <;> simp [h]
      | succ j =>
          rw [traceEntry_succ]
          have hlen : j < rs.length := by
            simp at hk
            omega
          rw [ih _ j hlen, update_lt_iff]
          simp only [List.getD_cons_succ]
          constructor
          · rintro ⟨⟨hb, hr⟩, hall⟩
            refine ⟨hb, ?_⟩
            intro m hm
            cases m with
            | zero =>
                simpa using WithBot.coe_lt_coe.mp hr
            | succ m2 =>
                simp only [List.getD_cons_succ]
                exact hall m2 (by omega)
          · rintro ⟨hb, hall⟩
            refine ⟨⟨hb, ?_⟩, ?_⟩
            · exact WithBot.coe_lt_coe.mpr (by simpa using hall 0 (by omega))
            · intro m hm
              simpa using hall (m + 1) (by omega)

/-- The tracked best value after iteration `k`: the reward at `k` when
a save happened there, the pre-iteration best otherwise. -/
theorem traceEntry_snd_eq (rs : List ℚ) :
    ∀ (b : WithBot ℚ) (k : ℕ), k < rs.length →
      (traceEntry rs b k).2
        = if (traceEntry rs b k).1 = true
            then ((rs.getD k 0 : ℚ) : WithBot ℚ)
          else bestBeforeAux rs b k := by
  induction rs with
  | nil =>
      intro b k hk
      simp at hk
  | cons r rs ih =>
      intro b k hk
      cases k with
      | zero =>
          rw [traceEntry_zero]
          by_cases h : b < (r : WithBot ℚ) <;> simp [bestBeforeAux, h]
      | succ j =>
          rw [traceEntry_succ, bestBeforeAux_succ]
          have hlen : j < rs.length := by
            simp at hk
            omega
          rw [ih _ j hlen]
          simp only [List.getD_cons_succ]

/-- C5: over any run's sequence of mean rewards, iteration `k` saves a
best checkpoint iff its reward strictly exceeds every previous
iteration's reward; equivalently iff it strictly exceeds the tracked
best-seen value (so a tie never saves); and the tracked best value is
updated to the new reward exactly on a save, strictly increasing, and
is left untouched otherwise. -/
theorem best_save_iff (rs : List ℚ) (k : ℕ) (hk : k < rs.length) :
    (savedAt rs k = true ↔ ∀ j, j < k → rs.getD j 0 < rs.getD k 0)
    ∧ (savedAt rs k = true ↔
        bestBefore rs k < ((rs.getD k 0 : ℚ) : WithBot ℚ))
    ∧ (savedAt rs k = true →
        bestAt rs k = ((rs.getD k 0 : ℚ) : WithBot ℚ)
          ∧ bestBefore rs k < bestAt rs k)
    ∧ (savedAt rs k = false → bestAt rs k = bestBefore rs k) := by
  have hfst := traceEntry_fst_iff rs ⊥ k hk
  have hbb := traceEntry_fst_iff_bestBefore rs ⊥ k hk
  have hsnd := traceEntry_snd_eq rs ⊥ k hk
  refine ⟨?_, hbb, ?_, ?_⟩
  · rw [savedAt, hfst]
    simp [WithBot.bot_lt_coe]
  · intro hs
    have hlt : bestBefore rs k < ((rs.getD k 0 : ℚ) : WithBot ℚ) :=
      hbb.mp hs
    rw [savedAt] at hs
    rw [bestAt, hsnd, if_pos hs]
    exact ⟨rfl, hlt⟩
  · intro hs
    rw [savedAt] at hs
    rw [bestAt, hsnd, if_neg (by rw [hs]; exact Bool.false_ne_true)]
    rfl

/-- C5 witness: over the reward sequence `[1, 1]`, iteration 1 ties the
best-seen value, and the characterization instantiates there. -/
theorem best_save_iff_witness :
    1 < ([1, 1] : List ℚ).length
    ∧ ((savedAt [1, 1] 1 = true ↔
          ∀ j, j < 1 → ([1, 1] : List ℚ).getD j 0 < ([1, 1] : List ℚ).getD 1 0)
        ∧ (savedAt [1, 1] 1 = true ↔
            bestBefore [1, 1] 1
              < ((([1, 1] : List ℚ).getD 1 0 : ℚ) : WithBot ℚ))
        ∧ (savedAt [1, 1] 1 = true →
            bestAt [1, 1] 1 = ((([1, 1] : List ℚ).getD 1 0 : ℚ) : WithBot ℚ)
              ∧ bestBefore [1, 1] 1 < bestAt [1, 1] 1)
        ∧ (savedAt [1, 1] 1 = false → bestAt [1, 1] 1 = bestBefore [1, 1] 1)) :=
  ⟨by norm_num, best_save_iff [1, 1] 1 (by norm_num)⟩

/-- A column of 0/1 flags has a non-negative sum. -/
theorem sum_nonneg_of_binary (l : List ℚ) (h : ∀ t ∈ l, t = 0 ∨ t = 1) :
    0 ≤ l.sum := by
  induction l with
  | nil => simp
  | cons r rs ih =>
      have hrs : 0 ≤ rs.sum := ih (fun t ht => h t (by simp [ht]))
      rcases h r (by simp) with h0 | h1
      · rw [List.sum_cons, h0]
        linarith
      · rw [List.sum_cons, h1]
        linarith

/-- A column of 0/1 flags summing to zero is all zeros. -/
theorem eq_zero_of_binary_sum_zero (l : List ℚ)
    (h : ∀ t ∈ l, t = 0 ∨ t = 1) (hs : l.sum = 0) : ∀ t ∈ l, t = 0 := by
  induction l with
  | nil => simp
  | cons r rs ih =>
      rw [List.sum_cons] at hs
      have hrs0 : 0 ≤ rs.sum :=
        sum_nonneg_of_binary rs (fun t ht => h t (by simp [ht]))
      have hr0 : r = 0 := by
        rcases h r (by simp) with h0 | h1
        · exact h0
        · rw [h1] at hs
          linarith
      have hsum : rs.sum = 0 := by
        rw [hr0] at hs
        linarith
      intro t ht
      rcases List.mem_cons.mp ht with rfl | hmem
      · exact hr0
      · exact ih (fun u hu => h u (by simp [hu])) hsum t hmem

/-- Reading any position of an all-zero column (with default 0) gives
zero. -/
theorem getD_eq_zero_of_all_zero (l : List ℚ) (h : ∀ t ∈ l, t = 0)
    (i : ℕ) : l.getD i 0 = 0 := by
  rcases hlt : l[i]? with _ | x
  · rw [List.getD_eq_getElem?_getD, hlt]
    rfl
  · have hmem : x ∈ l := List.getElem?_mem hlt
    rw [List.getD_eq_getElem?_getD, hlt]
    simpa using h x hmem

/-- C1: for a dataset with binary terminal flags, the loader's fallback
changes nothing but the terminal column; when the column sums to zero,
afterwards a row's flag is 1 exactly when the row is among the last
`min 1000 n`, the earlier rows' flags are unchanged, and the column
length is preserved; when the sum is nonzero the dataset is returned
untouched. -/
theorem terminal_fallback (d : Dataset)
    (hbin : ∀ t ∈ d.terminals, t = 0 ∨ t = 1) :
    ((applyTerminalFallback d).states = d.states
      ∧ (applyTerminalFallback d).actions = d.actions
      ∧ (applyTerminalFallback d).rewards = d.rewards)
    ∧ (d.terminals.sum = 0 →
        (applyTerminalFallback d).terminals.length = d.terminals.length
        ∧ (∀ i, i < d.terminals.length →
            ((applyTerminalFallback d).terminals.getD i 0 = 1 ↔
              d.terminals.length - min 1000 d.terminals.length ≤ i))
        ∧ (∀ i, i < d.terminals.length - min 1000 d.terminals.length →
            (applyTerminalFallback d).terminals.getD i 0
              = d.terminals.getD i 0))
    ∧ (¬d.terminals.sum = 0 → applyTerminalFallback d = d) := by
  by_cases hsum : d.terminals.sum = 0
  · have hall := eq_zero_of_binary_sum_zero _ hbin hsum
    have hk : min 1000 d.terminals.length ≤ d.terminals.length :=
      min_le_right _ _
    have hterm : (applyTerminalFallback d).terminals
        = d.terminals.take
            (d.terminals.length - min 1000 d.terminals.length)
          ++ List.replicate (min 1000 d.terminals.length) 1 := by
      simp [applyTerminalFallback, hsum, setTerminalsLast]
    have htake : (d.terminals.take
          (d.terminals.length - min 1000 d.terminals.length)).length
        = d.terminals.length - min 1000 d.terminals.length := by
      rw [List.length_take]
      omega
    have hzero : ∀ i, i < d.terminals.length - min 1000 d.terminals.length →
        (applyTerminalFallback d).terminals.getD i 0 = 0 := by
      intro i hik
      rw [hterm, List.getD_append _ _ _ _ (by rw [htake]; exact hik)]
      exact getD_eq_zero_of_all_zero _
        (fun t ht => hall t (List.take_subset _ _ ht)) i
    have hone : ∀ i, d.terminals.length - min 1000 d.terminals.length ≤ i →
        i < d.terminals.length →
        (applyTerminalFallback d).terminals.getD i 0 = 1 := by
      intro i hge hi
      rw [hterm, List.getD_append_right _ _ _ _ (by rw [htake]; exact hge),
        htake]
      have hlt : i - (d.terminals.length - min 1000 d.terminals.length)
          < min 1000 d.terminals.length := by omega
      rw [List.getD_eq_getElem?_getD, List.getElem?_replicate, if_pos hlt]
      rfl
    refine ⟨⟨?_, ?_, ?_⟩, fun _ => ⟨?_, ?_, ?_⟩,
      fun hcontra => absurd hsum hcontra⟩
    · simp [applyTerminalFallback, hsum]
    · simp [applyTerminalFallback, hsum]
    · simp [applyTerminalFallback, hsum]
    · rw [hterm, List.length_append, htake, List.length_replicate]
      omega
    · intro i hi
      by_cases hik : i < d.terminals.length - min 1000 d.terminals.length
      · rw [hzero i hik]
        constructor
        · intro h01
          exact absurd h01 (by norm_num)
        · intro hle
          exact absurd hle (by omega)
      · have hge : d.terminals.length - min 1000 d.terminals.length ≤ i := by
          omega
        rw [hone i hge hi]
        simp [hge]
    · intro i hik
      rw [hzero i hik, getD_eq_zero_of_all_zero _ hall i]
  · have hid : applyTerminalFallback d = d := by
      simp [applyTerminalFallback, hsum]
    rw [hid]
    exact ⟨⟨rfl, rfl, rfl⟩, fun hc => absurd hc hsum, fun _ => rfl⟩

/-- C1 witness: a two-row dataset with all-zero terminal flags
(`n = 2 < 1000`, so both rows are marked terminal). -/
theorem terminal_fallback_witness :
    (∀ t ∈ dW.terminals, t = 0 ∨ t = 1)
    ∧ (((applyTerminalFallback dW).states = dW.states
        ∧ (applyTerminalFallback dW).actions = dW.actions
        ∧ (applyTerminalFallback dW).rewards = dW.rewards)
      ∧ (dW.terminals.sum = 0 →
          (applyTerminalFallback dW).terminals.length = dW.terminals.length
          ∧ (∀ i, i < dW.terminals.length →
              ((applyTerminalFallback dW).terminals.getD i 0 = 1 ↔
                dW.terminals.length - min 1000 dW.terminals.length ≤ i))
          ∧ (∀ i, i < dW.terminals.length - min 1000 dW.terminals.length →
              (applyTerminalFallback dW).terminals.getD i 0
                = dW.terminals.getD i 0))
      ∧ (¬dW.terminals.sum = 0 → applyTerminalFallback dW = dW)) :=
  ⟨by decide, terminal_fallback dW (by decide)⟩

end GECIA
